import Mathlib

/-!
Shallow embedding of MLx `src/DataProviders/TextLoader.cpp`.

Conventions of the embedding:
* C++ `float` values are modelled by `ℚ` (exact arithmetic; none of the
  verified properties depend on rounding).
* `std::stof` / `strtol`-based token parsing are external library calls; they
  are passed in as parameters of type `String → Option _` (`none` models a
  parse failure, which in the C++ code raises an exception or triggers an
  explicit `Fail`).
* Thrown exceptions are modelled by `Except Err _`; each C++ exception class
  is mapped to one constructor of `Err`.
* Unchecked C++ container accesses (`std::vector::operator[]`,
  `std::vector::back()` on an empty vector) are undefined behaviour; the
  embedding makes every access bounds-checked and returns `Err.outOfBounds`
  where the C++ code would access out of bounds.
-/

namespace MLx

/-- Exception kinds of the C++ code: `invalid_argument` raised by `CheckArg`
(`argumentError`), `domain_error` raised by `Check<domain_error>`
(`rangeError`), `FormatException` (`formatError`), `std::out_of_range` from
`unordered_map::at` (`lookupError`), exceptions of `std::stof` on a bad
numeric literal (`numericError`), and undefined behaviour from an unchecked
out-of-bounds container access (`outOfBounds`). -/
inductive Err where
  | argumentError : Err
  | rangeError : Err
  | formatError : Err
  | lookupError : Err
  | numericError : Err
  | outOfBounds : Err
deriving DecidableEq, Repr

/-- The `Example` record produced by `ExampleParser::Parse`: features (kept
abstract here, the dense and sparse feature vectors are separate types),
label, weight and an optional name.  `F` is the feature-vector type. -/
structure Example (F : Type) where
  features : F
  label : ℚ
  weight : ℚ
  name : Option String
deriving DecidableEq, Repr

/-- `columns[i]` on a `std::vector` with an `int` index: no bounds check is
performed by C++, so an index outside `[0, size)` is undefined behaviour,
modelled as `Err.outOfBounds`. -/
def getCol (columns : List String) (i : Int) : Except Err String :=
  if h : 0 ≤ i ∧ i.toNat < columns.length then .ok (columns.get ⟨i.toNat, h.2⟩)
  else .error .outOfBounds

/-- `v[i] = x` on a `std::vector`: in bounds it stores `x` at position `i`,
out of bounds it is undefined behaviour (`none`). -/
def setAt (l : List α) (i : Nat) (x : α) : Option (List α) :=
  if i < l.length then some (l.set i x) else none

/-- Conversion of a C++ `int` to `size_t` (64-bit unsigned), as performed by
the usual arithmetic conversions when an `int` is compared with a `size_t`:
negative values wrap around modulo `2^64`. -/
def asSize (c : Int) : Nat := (c % (2 ^ 64)).toNat

/-! ## Label map (`ExampleParser::ExampleParser`, lines 172–205)

The constructor reads all lines of the label-map file (`ReadAllLines` is an
external utility; the model receives the list of lines), checks that there
are more than one line and that the first line has at most two tab-separated
tokens (`Split` is likewise external and passed as `splitTab`), then fills
the map in one of two forms. -/

/-- One-column form (lines 183–190): every line is a bare key (`string key =
*line`), assigned the running counter as value; a key already present is a
`FormatException` ("Duplicate key in label map file").  The
`unordered_map` is modelled as an association list extended at the back. -/
def buildMap1 : List String → ℚ → List (String × ℚ) → Except Err (List (String × ℚ))
  | [], _, m => .ok m
  | l :: rest, c, m =>
    if (m.lookup l).isSome then .error .formatError
    else buildMap1 rest (c + 1) (m ++ [(l, c)])

/-- `labelMap_[key] = value` on an `unordered_map`: overwrite the binding
when the key is present, append it otherwise, so the last binding of a
repeated key wins. -/
def mapInsert (m : List (String × ℚ)) (k : String) (x : ℚ) : List (String × ℚ) :=
  if (m.lookup k).isSome then m.map (fun p => if p.1 = k then (k, x) else p)
  else m ++ [(k, x)]

/-- Two-column form (lines 191–204): every line must split into exactly two
tokens, the second parsed by `stof` (`labelMap_[key] = stof(...)`, an
overwriting insert); any failure inside the `try` block is rethrown as a
`FormatException`. -/
def buildMap2 (splitTab : String → List String) (stof : String → Option ℚ) :
    List String → List (String × ℚ) → Except Err (List (String × ℚ))
  | [], m => .ok m
  | l :: rest, m =>
    match splitTab l with
    | [k, v] =>
      match stof v with
      | some x => buildMap2 splitTab stof rest (mapInsert m k x)
      | none => .error .formatError
    | _ => .error .formatError

/-- `ExampleParser::ExampleParser`, label-map part (lines 178–204), after the
empty-path early return: requires more than one line and at most two columns
on the first line, then dispatches on the first line's token count. -/
def buildLabelMap (splitTab : String → List String) (stof : String → Option ℚ)
    (lines : List String) : Except Err (List (String × ℚ)) :=
  match lines with
  | [] => .error .formatError
  | l0 :: _ =>
    if lines.length ≤ 1 then .error .formatError
    else if 2 < (splitTab l0).length then .error .formatError
    else if (splitTab l0).length = 1 then buildMap1 lines 0 []
    else buildMap2 splitTab stof lines []

/-! ## `ExampleParser::Parse` (lines 207–212)

`Parse` splits the line (external `Split`; the model receives `columns`
directly), resolves label and weight, then builds the `Example` from the
feature vector produced by the virtual `ParseFeatures` and the optional
name column.  All column accesses use unchecked `operator[]`. -/

/-- Configuration held by an `ExampleParser`: dimension, the three role
column indices (`-1` = not configured) and the label map. -/
structure ParserConfig where
  dimension : Int
  labelCol : Int
  weightCol : Int
  nameCol : Int
  labelMap : List (String × ℚ)

/-- `ExampleParser::Parse` on an already split line.  `stof` models
`std::stof` (failure raises, modelled `numericError`); a label-map lookup
miss is `unordered_map::at` raising `out_of_range` (`lookupError`);
`parseFeats` is the virtual `ParseFeatures` of the concrete parser. -/
def ExampleParser.Parse (cfg : ParserConfig) (stof : String → Option ℚ)
    (parseFeats : List String → Except Err F) (columns : List String) :
    Except Err (Example F) :=
  match getCol columns cfg.labelCol with
  | .error e => .error e
  | .ok labelStr =>
    let labelRes : Except Err ℚ :=
      if cfg.labelMap.isEmpty then
        match stof labelStr with
        | some v => .ok v
        | none => .error .numericError
      else
        match cfg.labelMap.lookup labelStr with
        | some v => .ok v
        | none => .error .lookupError
    match labelRes with
    | .error e => .error e
    | .ok label =>
      let weightRes : Except Err ℚ :=
        if 0 ≤ cfg.weightCol then
          match getCol columns cfg.weightCol with
          | .error e => .error e
          | .ok ws =>
            match stof ws with
            | some v => .ok v
            | none => .error .numericError
        else .ok 1
      match weightRes with
      | .error e => .error e
      | .ok weight =>
        match parseFeats columns with
        | .error e => .error e
        | .ok feats =>
          let nameRes : Except Err (Option String) :=
            if 0 ≤ cfg.nameCol then
              match getCol columns cfg.nameCol with
              | .error e => .error e
              | .ok s => .ok (some s)
            else .ok none
          match nameRes with
          | .error e => .error e
          | .ok name =>
            .ok { features := feats, label := label, weight := weight, name := name }

/-! ## `DenseParser` (lines 214–230) -/

/-- `DenseParser::DenseParser` (lines 214–222): the precomputed
`parseIndices_` are the indices of `nonFeature` that are not marked, in
ascending order. -/
def denseParseIndices (nonFeature : List Bool) : List Nat :=
  (List.range nonFeature.length).filter (fun i => !(nonFeature.getD i true))

/-- One body step of the dense loop: `features[i] = stof(*columns[parseIndices_[i]])`
reads column `j` (unchecked) and parses it with `stof` (failure raises). -/
def denseReadAt (stof : String → Option ℚ) (columns : List String) (j : Nat) :
    Except Err ℚ :=
  match columns.get? j with
  | none => .error .outOfBounds
  | some s =>
    match stof s with
    | some v => .ok v
    | none => .error .numericError

/-- The dense loop `for (int i = 0; i < dimension_; ++i)` (lines 227–228):
`i` is the current loop counter, the second argument the number of remaining
iterations.  `parseIndices_[i]` is an unchecked access. -/
def denseLoop (stof : String → Option ℚ) (columns : List String)
    (parseIndices : List Nat) : Nat → Nat → Except Err (List ℚ)
  | _, 0 => .ok []
  | i, r + 1 =>
    match parseIndices.get? i with
    | none => .error .outOfBounds
    | some j =>
      match denseReadAt stof columns j with
      | .error e => .error e
      | .ok v =>
        match denseLoop stof columns parseIndices (i + 1) r with
        | .ok vs => .ok (v :: vs)
        | .error e => .error e

/-- `DenseParser::ParseFeatures` (lines 224–230): `parseIndices_.back()` (an
unchecked access, undefined on an empty vector), the column-count check
`columns.size() > parseIndices_.back()` raising `FormatException`
("Wrong number of columns"), then the read loop. -/
def DenseParser.ParseFeatures (dimension : Nat) (parseIndices : List Nat)
    (stof : String → Option ℚ) (columns : List String) : Except Err (List ℚ) :=
  match parseIndices.getLast? with
  | none => .error .outOfBounds
  | some last =>
    if last < columns.length then denseLoop stof columns parseIndices 0 dimension
    else .error .formatError

/-! ## `SparseParser` (lines 232–266) -/

/-- `SparseParser::SparseParser` line 235:
`featureColumnOffset_ = 1 + (weightCol < 0 ? 0 : 1) + (nameCol < 0 ? 0 : 1)`. -/
def featureColumnOffset (weightCol nameCol : Int) : Nat :=
  1 + (if weightCol < 0 then 0 else 1) + (if nameCol < 0 then 0 else 1)

/-- `SparseParser::SparseParser` (lines 232–238): computes the offset, then
`CheckArg(labelCol < featureColumnOffset_ && weightCol < featureColumnOffset_
&& nameCol < featureColumnOffset_, ...)`.  Each comparison is between an
`int` and the `size_t` field `featureColumnOffset_`, so the `int` operand is
converted to `size_t` first (`asSize`).  On success the constructed offset is
returned. -/
def SparseParser.construct (labelCol weightCol nameCol : Int) : Except Err Nat :=
  let off := featureColumnOffset weightCol nameCol
  if asSize labelCol < off ∧ asSize weightCol < off ∧ asSize nameCol < off then .ok off
  else .error .argumentError

/-- Statement helper: the pointwise parse of a token list — `some` of the
parsed pairs when every token parses, `none` as soon as one fails. -/
def parseAll (parseTok : String → Option (Int × ℚ)) : List String → Option (List (Int × ℚ))
  | [] => some []
  | t :: ts =>
    match parseTok t with
    | none => none
    | some p =>
      match parseAll parseTok ts with
      | none => none
      | some ps => some (p :: ps)

/-- The sparse loop with the array stores exactly as written in the source
(lines 248–263): at loop counter `i`, with source column `j = i + offset`,
the code stores `indices[j] = index; values[j] = value;` into vectors of
length `count` — the *source* index `j`, not the loop counter `i`.  The
first argument is the number of remaining iterations (`count - i`). -/
def sparseLoopRaw (dimension : Int) (parseTok : String → Option (Int × ℚ))
    (columns : List String) : Nat → Nat → Int → List Int → List ℚ →
    Except Err (List Int × List ℚ)
  | 0, _, _, indices, values => .ok (indices, values)
  | r + 1, j, lastIndex, indices, values =>
    match columns.get? j with
    | none => .error .outOfBounds
    | some t =>
      match parseTok t with
      | none => .error .formatError
      | some (index, value) =>
        if index ≤ lastIndex ∨ dimension ≤ index then .error .formatError
        else
          match setAt indices j index, setAt values j value with
          | some indices1, some values1 =>
            sparseLoopRaw dimension parseTok columns r (j + 1) index indices1 values1
          | _, _ => .error .outOfBounds

/-- `SparseParser::ParseFeatures` (lines 240–266) with the stores transcribed
verbatim: `IntVec indices(count); FloatVec values(count);` are zero-filled
vectors of length `count`, and the loop runs `i` from `0` to `count` with
`j = i + offset` used as the store position. -/
def SparseParser.ParseFeaturesRaw (dimension : Int) (offset : Nat)
    (parseTok : String → Option (Int × ℚ)) (columns : List String) :
    Except Err (List Int × List ℚ) :=
  let count := columns.length - offset
  if 0 < count ∧ (count : Int) ≤ dimension then
    sparseLoopRaw dimension parseTok columns count offset (-1)
      (List.replicate count 0) (List.replicate count 0)
  else .error .formatError

/-- A concrete sample `<integer>:<float>` token decoder, used to evaluate
the sparse model on the sample rows of the witnesses and counterexamples. -/
def sampleTok : String → Option (Int × ℚ)
  | "0:1" => some (0, 1)
  | "5:2" => some (5, 2)
  | _ => none

/-! ## `TextLoader::TextLoader` (lines 94–170): role marking and format probe -/

/-- `isNonFeature[i] = true` with an `int` index: unchecked
`std::vector<bool>::operator[]`, undefined behaviour outside `[0, size)`. -/
def setRole (v : List Bool) (i : Int) : Except Err (List Bool) :=
  if 0 ≤ i ∧ i.toNat < v.length then .ok (v.set i.toNat true)
  else .error .outOfBounds

/-- Lines 118–134 transcribed: `vector<bool> isNonFeature(numCols)` is
zero-initialised; then the label, name and weight branches, in source order.
Each branch fires when its index is `!= -1`, checks
`0 <= col && col < numCols` (`Check<domain_error>`), and marks a column.
The weight branch (lines 130–134) marks `isNonFeature[nameCol]` — the index
written in the source — not `isNonFeature[weightCol]`. -/
def markRoles (numCols : Nat) (labelCol nameCol weightCol : Int) :
    Except Err (List Bool) := do
  let v0 := List.replicate numCols false
  let v1 ←
    if labelCol ≠ -1 then
      if 0 ≤ labelCol ∧ labelCol < (numCols : Int) then setRole v0 labelCol
      else Except.error Err.rangeError
    else Except.ok v0
  let v2 ←
    if nameCol ≠ -1 then
      if 0 ≤ nameCol ∧ nameCol < (numCols : Int) then setRole v1 nameCol
      else Except.error Err.rangeError
    else Except.ok v1
  let v3 ←
    if weightCol ≠ -1 then
      if 0 ≤ weightCol ∧ weightCol < (numCols : Int) then setRole v2 nameCol
      else Except.error Err.rangeError
    else Except.ok v2
  return v3

/-- Lines 156–158: `Check<domain_error>(firstInstanceColumnCount <= numCols,
"Invalid data"); isSparse_ = firstInstanceColumnCount < numCols;`.  Returns
`isSparse_` on success. -/
def classifyFormat (numCols firstCount : Nat) : Except Err Bool :=
  if firstCount ≤ numCols then .ok (decide (firstCount < numCols))
  else .error .rangeError

/-! ## `TextLoader::State` (lines 48–92): the streaming cursor

The file stream after the header is modelled as the list of data lines
(`lines`), with `pos` the index of the next line `getline` would return;
`dataSeekPosition_` corresponds to `pos = 0`.  In cached mode `current_` is a
pointer into `cache_`, modelled by the index `curIdx`. -/

structure CursorState (F : Type) where
  lines : List String
  pos : Nat
  current : Option (Except Err (Example F))
  cache : List (Example F)
  curIdx : Nat

/-- `State::Reset` (lines 53–66): with an empty cache, seek to
`dataSeekPosition_`, `getline` one line (the `assert` fails — modelled as a
`none` current — if no line is there) and parse it; with a cache, point
`current_` at `cache_[0]`. -/
def State.Reset (parse : String → Except Err (Example F)) (s : CursorState F) :
    CursorState F :=
  if s.cache.isEmpty then
    match s.lines.head? with
    | some l => { s with pos := 1, current := some (parse l) }
    | none => { s with current := none }
  else { s with curIdx := 0, current := (s.cache.get? 0).map Except.ok }

/-- `State::MoveNext` (lines 74–86): with an empty cache, `getline` the next
line, parse it and return `true`, or return `false` at end of stream; with a
cache, `return ++current_ <= &(cache_.back())`. -/
def State.MoveNext (parse : String → Except Err (Example F)) (s : CursorState F) :
    CursorState F × Bool :=
  if s.cache.isEmpty then
    match s.lines.get? s.pos with
    | some l => ({ s with pos := s.pos + 1, current := some (parse l) }, true)
    | none => (s, false)
  else
    let i := s.curIdx + 1
    ({ s with curIdx := i, current := (s.cache.get? i).map Except.ok },
      decide (i < s.cache.length))

/-- `State::State` (lines 68–72): store the stream position and call
`Reset`. -/
def State.construct (parse : String → Except Err (Example F))
    (lines : List String) (cache : List (Example F)) : CursorState F :=
  State.Reset parse
    { lines := lines, pos := 0, current := none, cache := cache, curIdx := 0 }

/-- `n` consecutive `MoveNext` calls (discarding the returned Booleans). -/
def State.run (parse : String → Except Err (Example F)) (s : CursorState F) :
    Nat → CursorState F
  | 0 => s
  | n + 1 => State.run parse (State.MoveNext parse s).1 n

/-- Modelled from the spec: `StreamingExamples::State::Cache` is declared in
the (absent) base class; per the spec it eagerly drains the cursor into the
in-memory cache, so a successfully built cache holds the parse of every data
line in order (a parse failure would abort the drain). -/
def cacheOf (parse : String → Except Err (Example F)) :
    List String → Option (List (Example F))
  | [] => some []
  | l :: ls =>
    match parse l with
    | .error _ => none
    | .ok e =>
      match cacheOf parse ls with
      | none => none
      | some es => some (e :: es)

/-! ## Theorems -/

/-- C6: after splitting the probe data row, a column count equal to
`numCols` classifies the dataset dense (`isSparse = false`), a strictly
smaller count classifies it sparse, and a strictly greater count fails the
load. -/
theorem classifyFormat_spec (numCols firstCount : Nat) :
    (firstCount = numCols → classifyFormat numCols firstCount = .ok false) ∧
    (firstCount < numCols → classifyFormat numCols firstCount = .ok true) ∧
    (numCols < firstCount → classifyFormat numCols firstCount = .error .rangeError) := by
  refine ⟨fun h => ?_, fun h => ?_, fun h => ?_⟩
  · simp [classifyFormat, h]
  · simp [classifyFormat, h, Nat.le_of_lt h]
  · simp [classifyFormat, h]

theorem classifyFormat_spec_witness :
    classifyFormat 3 3 = .ok false ∧ classifyFormat 3 2 = .ok true ∧
    classifyFormat 3 4 = .error .rangeError :=
  ⟨(classifyFormat_spec 3 3).1 rfl, (classifyFormat_spec 3 2).2.1 (by decide),
    (classifyFormat_spec 3 4).2.2 (by decide)⟩

/-- C2: at `numCols = 3`, `labelCol = 0`, `nameCol = 1`, `weightCol = 2`,
the role-marking step of the loader leaves the weight column (index 2)
unmarked: the weight branch passes its range check but then executes
`isNonFeature[nameCol] = true`, re-marking column 1 instead of column 2, so
the resulting mask is `[true, true, false]`. -/
theorem markRoles_weight_defect :
    markRoles 3 0 1 2 = .ok [true, true, false] := rfl

/-- C1: the sparse feature loop stores the pair parsed at loop counter `i`
at array position `j = i + featureColumnOffset`, not at position `i`.  At
`dimension = 2`, `featureColumnOffset = 1` (label only) and a row with one
trailing token, `count = 1`, the single parsed pair is stored at position 1
of the length-1 `indices`/`values` vectors: an out-of-bounds write. -/
theorem sparse_store_defect :
    SparseParser.ParseFeaturesRaw 2 1 (fun _ => some (0, 1)) ["L", "0:1"]
      = .error .outOfBounds := rfl

/-- The `int`-to-`size_t` conversion is the identity on small non-negative
values. -/
theorem asSize_eq_toNat (c : Int) (h0 : 0 ≤ c) (h : c < 2 ^ 64) :
    asSize c = c.toNat := by
  unfold asSize
  rw [Int.emod_eq_of_lt h0 h]

/-- C9: `SparseParser` construction computes `featureColumnOffset` as 1 plus
one for each of the weight and name columns present (index `≥ 0`), and fails
(`CheckArg` raising `invalid_argument`) whenever some configured non-feature
column index `c` — label, weight or name — is not strictly below that
offset. -/
theorem sparseConstruct_spec (labelCol weightCol nameCol c : Int)
    (hc : c = labelCol ∨ c = weightCol ∨ c = nameCol) (h0 : 0 ≤ c)
    (hint : c < 2 ^ 31)
    (hoff : ¬ (c < (featureColumnOffset weightCol nameCol : Int))) :
    featureColumnOffset weightCol nameCol
        = 1 + (if 0 ≤ weightCol then 1 else 0) + (if 0 ≤ nameCol then 1 else 0) ∧
    SparseParser.construct labelCol weightCol nameCol = .error .argumentError := by
  have hoffEq : featureColumnOffset weightCol nameCol
      = 1 + (if 0 ≤ weightCol then 1 else 0) + (if 0 ≤ nameCol then 1 else 0) := by
    unfold featureColumnOffset
    split_ifs <;> omega
  refine ⟨hoffEq, ?_⟩
  have hsize : asSize c = c.toNat :=
    asSize_eq_toNat c h0 (lt_trans hint (by norm_num))
  have hfail : ¬ (asSize c < featureColumnOffset weightCol nameCol) := by
    rw [hsize]
    omega
  unfold SparseParser.construct
  rw [if_neg]
  intro hall
  rcases hc with rfl | rfl | rfl
  · exact hfail hall.1
  · exact hfail hall.2.1
  · exact hfail hall.2.2

theorem sparseConstruct_spec_witness :
    featureColumnOffset 5 (-1) = 1 + 1 + 0 ∧
    SparseParser.construct 0 5 (-1) = .error .argumentError := by
  have h := sparseConstruct_spec 0 5 (-1) 5 (Or.inr (Or.inl rfl)) (by decide)
    (by decide) (by decide)
  simpa using h


/-- Auxiliary: the ascending-and-bounded chain relation only inspects the
index component of the sentinel, so its value component is irrelevant. -/
theorem chain_snd_irrel (dimension : Int) (i : Int) (x y : ℚ) (l : List (Int × ℚ))
    (h : List.Chain (fun p q : Int × ℚ => p.1 < q.1 ∧ q.1 < dimension) (i, x) l) :
    List.Chain (fun p q : Int × ℚ => p.1 < q.1 ∧ q.1 < dimension) (i, y) l := by
  cases h with
  | nil => exact List.Chain.nil
  | cons hr hc => exact List.Chain.cons hr hc

/-- A chain ascending-and-bounded from a sentinel gives a strictly ascending
`Chain'` together with the per-element dimension bound. -/
theorem chain_bound (dimension : Int) :
    ∀ (a : Int × ℚ) (ps : List (Int × ℚ)),
    List.Chain (fun p q : Int × ℚ => p.1 < q.1 ∧ q.1 < dimension) a ps →
    List.Chain' (fun p q : Int × ℚ => p.1 < q.1) ps ∧ ∀ p ∈ ps, p.1 < dimension := by
  intro a ps
  induction ps generalizing a with
  | nil => intro _; exact ⟨trivial, by simp⟩
  | cons p ps1 ihp =>
    intro h
    cases h with
    | cons hr hc =>
      obtain ⟨hch, hbd⟩ := ihp p hc
      refine ⟨?_, ?_⟩
      · show List.Chain (fun p q : Int × ℚ => p.1 < q.1) p ps1
        exact List.Chain.imp (fun x y hxy => hxy.1) hc
      · intro q hq
        rcases List.mem_cons.1 hq with rfl | hq1
        · exact hr.2
        · exact hbd q hq1

/-- A successful checked store means the position was in bounds and the
length is unchanged. -/
theorem setAt_some (l : List α) (i : Nat) (x : α) (l1 : List α)
    (h : setAt l i x = some l1) : i < l.length ∧ l1.length = l.length := by
  unfold setAt at h
  by_cases hi : i < l.length
  · rw [if_pos hi] at h
    refine ⟨hi, ?_⟩
    rw [← Option.some.inj h]
    simp
  · rw [if_neg hi] at h
    exact nomatch h

/-- Every failure of the raw sparse loop is a `FormatException` or an
out-of-bounds access. -/
theorem sparseLoopRaw_error (dimension : Int) (parseTok : String → Option (Int × ℚ))
    (columns : List String) : ∀ (r j : Nat) (last : Int) (ind : List Int)
    (vals : List ℚ) (e : Err),
    sparseLoopRaw dimension parseTok columns r j last ind vals = .error e →
    e = .formatError ∨ e = .outOfBounds := by
  intro r
  induction r with
  | zero =>
    intro j last ind vals e h
    exact nomatch h
  | succ r ihr =>
    intro j last ind vals e h
    simp only [sparseLoopRaw] at h
    cases hg : columns.get? j with
    | none =>
      simp only [hg] at h
      exact Or.inr (Except.error.inj h).symm
    | some t =>
      simp only [hg] at h
      cases ht : parseTok t with
      | none =>
        simp only [ht] at h
        exact Or.inl (Except.error.inj h).symm
      | some p =>
        obtain ⟨i, v⟩ := p
        simp only [ht] at h
        by_cases hcond : i ≤ last ∨ dimension ≤ i
        · rw [if_pos hcond] at h
          exact Or.inl (Except.error.inj h).symm
        · rw [if_neg hcond] at h
          cases hsi : setAt ind j i with
          | none =>
            simp only [hsi] at h
            exact Or.inr (Except.error.inj h).symm
          | some ind1 =>
            cases hsv : setAt vals j v with
            | none =>
              simp only [hsi, hsv] at h
              exact Or.inr (Except.error.inj h).symm
            | some vals1 =>
              simp only [hsi, hsv] at h
              exact ihr (j + 1) i ind1 vals1 e h

/-- A successful raw sparse loop performed all its stores in bounds, so the
last written position `j + r - 1` fits in the index vector. -/
theorem sparseLoopRaw_ok_bound (dimension : Int) (parseTok : String → Option (Int × ℚ))
    (columns : List String) : ∀ (r j : Nat) (last : Int) (ind : List Int)
    (vals : List ℚ) (out : List Int × List ℚ),
    sparseLoopRaw dimension parseTok columns r j last ind vals = .ok out →
    r = 0 ∨ j + r ≤ ind.length := by
  intro r
  induction r with
  | zero =>
    intro j last ind vals out _
    exact Or.inl rfl
  | succ r ihr =>
    intro j last ind vals out h
    simp only [sparseLoopRaw] at h
    cases hg : columns.get? j with
    | none =>
      simp only [hg] at h
      exact nomatch h
    | some t =>
      simp only [hg] at h
      cases ht : parseTok t with
      | none =>
        simp only [ht] at h
        exact nomatch h
      | some p =>
        obtain ⟨i, v⟩ := p
        simp only [ht] at h
        by_cases hcond : i ≤ last ∨ dimension ≤ i
        · rw [if_pos hcond] at h
          exact nomatch h
        · rw [if_neg hcond] at h
          cases hsi : setAt ind j i with
          | none =>
            simp only [hsi] at h
            exact nomatch h
          | some ind1 =>
            cases hsv : setAt vals j v with
            | none =>
              simp only [hsi, hsv] at h
              exact nomatch h
            | some vals1 =>
              simp only [hsi, hsv] at h
              obtain ⟨hjlt, hlen⟩ := setAt_some ind j i ind1 hsi
              rcases ihr (j + 1) i ind1 vals1 out h with h1 | h1
              · right
                omega
              · right
                rw [hlen] at h1
                omega

/-- A successful raw sparse loop consumed tokens that all parse and whose
indices chain strictly upward from `lastIndex`, bounded by the dimension. -/
theorem sparseLoopRaw_ok_chain (dimension : Int) (parseTok : String → Option (Int × ℚ))
    (columns : List String) : ∀ (r j : Nat) (last : Int) (ind : List Int)
    (vals : List ℚ) (out : List Int × List ℚ),
    sparseLoopRaw dimension parseTok columns r j last ind vals = .ok out →
    ∃ ps, parseAll parseTok ((columns.drop j).take r) = some ps ∧
      List.Chain (fun p q : Int × ℚ => p.1 < q.1 ∧ q.1 < dimension) (last, 0) ps := by
  intro r
  induction r with
  | zero =>
    intro j last ind vals out _
    exact ⟨[], by simp [parseAll], List.Chain.nil⟩
  | succ r ihr =>
    intro j last ind vals out h
    simp only [sparseLoopRaw] at h
    cases hg : columns.get? j with
    | none =>
      simp only [hg] at h
      exact nomatch h
    | some t =>
      simp only [hg] at h
      cases ht : parseTok t with
      | none =>
        simp only [ht] at h
        exact nomatch h
      | some p =>
        obtain ⟨i, v⟩ := p
        simp only [ht] at h
        by_cases hcond : i ≤ last ∨ dimension ≤ i
        · rw [if_pos hcond] at h
          exact nomatch h
        · rw [if_neg hcond] at h
          push_neg at hcond
          cases hsi : setAt ind j i with
          | none =>
            simp only [hsi] at h
            exact nomatch h
          | some ind1 =>
            cases hsv : setAt vals j v with
            | none =>
              simp only [hsi, hsv] at h
              exact nomatch h
            | some vals1 =>
              simp only [hsi, hsv] at h
              obtain ⟨ps1, hps1, hch1⟩ := ihr (j + 1) i ind1 vals1 out h
              obtain ⟨hjlt, hget⟩ := List.get?_eq_some.1 hg
              have hdrop : columns.drop j = t :: columns.drop (j + 1) := by
                have hget2 : columns[j] = t :=
                  (List.get_eq_getElem columns ⟨j, hjlt⟩).symm.trans hget
                rw [List.drop_eq_getElem_cons hjlt, hget2]
              refine ⟨(i, v) :: ps1, ?_, List.Chain.cons ⟨hcond.1, hcond.2⟩
                (chain_snd_irrel dimension i 0 v ps1 hch1)⟩
              rw [hdrop]
              simp only [List.take_succ_cons, parseAll, ht, hps1]

/-- C4 (amended): the guard and the per-token validation of
`SparseParser::ParseFeatures` are as specified — a success implies the
consumed tokens all parse with strictly ascending indices below the
dimension — but because each validated pair is stored at the source column
index `j = i + featureColumnOffset`, every failure is either a
`FormatException` or the out-of-bounds store, a violating row can end in the
out-of-bounds store instead of a `FormatException`, and at the offsets the
constructor actually produces (`featureColumnOffset ≥ 1`) the function never
succeeds at all. -/
theorem sparseParseFeaturesRaw_spec (dimension : Int) (offset : Nat)
    (parseTok : String → Option (Int × ℚ)) (columns : List String) :
    (∀ out, SparseParser.ParseFeaturesRaw dimension offset parseTok columns
        = .ok out →
      ∃ ps, parseAll parseTok (columns.drop offset) = some ps ∧
        List.Chain (fun p q : Int × ℚ => p.1 < q.1 ∧ q.1 < dimension) (-1, 0) ps ∧
        List.Chain' (fun p q : Int × ℚ => p.1 < q.1) ps ∧
        ∀ p ∈ ps, p.1 < dimension) ∧
    (∀ e, SparseParser.ParseFeaturesRaw dimension offset parseTok columns
        = .error e → e = .formatError ∨ e = .outOfBounds) ∧
    (1 ≤ offset → ∀ out,
      SparseParser.ParseFeaturesRaw dimension offset parseTok columns ≠ .ok out) ∧
    (∀ ps, parseAll parseTok (columns.drop offset) = some ps →
      ¬ List.Chain (fun p q : Int × ℚ => p.1 < q.1 ∧ q.1 < dimension) (-1, 0) ps →
      SparseParser.ParseFeaturesRaw dimension offset parseTok columns
          = .error .formatError ∨
        SparseParser.ParseFeaturesRaw dimension offset parseTok columns
          = .error .outOfBounds) := by
  by_cases hcnt : 0 < columns.length - offset ∧
      ((columns.length - offset : Nat) : Int) ≤ dimension
  · have hunf : SparseParser.ParseFeaturesRaw dimension offset parseTok columns
        = sparseLoopRaw dimension parseTok columns (columns.length - offset) offset
            (-1) (List.replicate (columns.length - offset) 0)
            (List.replicate (columns.length - offset) 0) := by
      simp only [SparseParser.ParseFeaturesRaw]
      rw [if_pos hcnt]
    have htake : (columns.drop offset).take (columns.length - offset)
        = columns.drop offset := by
      rw [show columns.length - offset = (columns.drop offset).length by
        rw [List.length_drop]]
      exact List.take_length _
    have hA : ∀ out, SparseParser.ParseFeaturesRaw dimension offset parseTok columns
        = .ok out →
        ∃ ps, parseAll parseTok (columns.drop offset) = some ps ∧
          List.Chain (fun p q : Int × ℚ => p.1 < q.1 ∧ q.1 < dimension) (-1, 0) ps ∧
          List.Chain' (fun p q : Int × ℚ => p.1 < q.1) ps ∧
          ∀ p ∈ ps, p.1 < dimension := by
      intro out hok
      rw [hunf] at hok
      obtain ⟨ps, hps, hch⟩ :=
        sparseLoopRaw_ok_chain dimension parseTok columns _ _ _ _ _ _ hok
      rw [htake] at hps
      obtain ⟨hc1, hc2⟩ := chain_bound dimension _ _ hch
      exact ⟨ps, hps, hch, hc1, hc2⟩
    have hB : ∀ e, SparseParser.ParseFeaturesRaw dimension offset parseTok columns
        = .error e → e = .formatError ∨ e = .outOfBounds := by
      intro e herr
      rw [hunf] at herr
      exact sparseLoopRaw_error dimension parseTok columns _ _ _ _ _ _ herr
    refine ⟨hA, hB, ?_, ?_⟩
    · intro hoff out hok
      rw [hunf] at hok
      rcases sparseLoopRaw_ok_bound dimension parseTok columns _ _ _ _ _ _ hok
        with h1 | h1
      · omega
      · rw [List.length_replicate] at h1
        omega
    · intro ps hps hnot
      cases hres : SparseParser.ParseFeaturesRaw dimension offset parseTok columns with
      | ok out =>
        obtain ⟨ps1, hps1, hch1, -, -⟩ := hA out hres
        rw [hps] at hps1
        obtain rfl : ps = ps1 := Option.some.inj hps1
        exact absurd hch1 hnot
      | error e =>
        rcases hB e hres with rfl | rfl
        · exact Or.inl rfl
        · exact Or.inr rfl
  · have hunf : SparseParser.ParseFeaturesRaw dimension offset parseTok columns
        = .error .formatError := by
      simp only [SparseParser.ParseFeaturesRaw]
      rw [if_neg hcnt]
    refine ⟨?_, ?_, ?_, ?_⟩
    · intro out hok
      rw [hunf] at hok
      exact nomatch hok
    · intro e herr
      rw [hunf] at herr
      exact Or.inl (Except.error.inj herr).symm
    · intro _ out hok
      rw [hunf] at hok
      exact nomatch hok
    · intro ps _ _
      exact Or.inl hunf

theorem sparseParseFeaturesRaw_spec_witness :
    (Err.outOfBounds = Err.formatError ∨ Err.outOfBounds = Err.outOfBounds) ∧
    SparseParser.ParseFeaturesRaw 3 3 sampleTok ["L", "W", "N", "0:1", "5:2"]
        ≠ .ok ([0, 0], [0, 0]) ∧
    (SparseParser.ParseFeaturesRaw 3 3 sampleTok ["L", "W", "N", "0:1", "5:2"]
        = .error .formatError ∨
      SparseParser.ParseFeaturesRaw 3 3 sampleTok ["L", "W", "N", "0:1", "5:2"]
        = .error .outOfBounds) :=
  ⟨(sparseParseFeaturesRaw_spec 3 3 sampleTok ["L", "W", "N", "0:1", "5:2"]).2.1
      .outOfBounds rfl,
    (sparseParseFeaturesRaw_spec 3 3 sampleTok ["L", "W", "N", "0:1", "5:2"]).2.2.1
      (by decide) ([0, 0], [0, 0]),
    (sparseParseFeaturesRaw_spec 3 3 sampleTok ["L", "W", "N", "0:1", "5:2"]).2.2.2
      [(0, 1), (5, 2)] rfl (by
        intro hch
        cases hch with
        | cons hr hc =>
          cases hc with
          | cons hr2 hc2 => exact absurd hr2.2 (by decide))⟩

/-- C4, counterexample to the original claim: the row
`["L", "W", "N", "0:1", "5:2"]` at `featureColumnOffset = 3` and
`dimension = 3` parses to the pairs `(0, 1), (5, 2)` containing the
out-of-range index `5 ≥ 3`, yet `ParseFeatures` fails with the out-of-bounds
store (the first token is stored at column index `3` in the length-2
vectors), not with a `FormatException`. -/
theorem sparse_ascending_counterexample :
    parseAll sampleTok ((["L", "W", "N", "0:1", "5:2"] : List String).drop 3)
        = some [(0, 1), (5, 2)] ∧
    (3 : Int) ≤ 5 ∧
    SparseParser.ParseFeaturesRaw 3 3 sampleTok ["L", "W", "N", "0:1", "5:2"]
        = .error .outOfBounds ∧
    Err.outOfBounds ≠ Err.formatError :=
  ⟨rfl, by decide, rfl, by decide⟩

/-- The precomputed dense feature positions are strictly ascending. -/
theorem denseParseIndices_sorted (nonFeature : List Bool) :
    List.Pairwise (· < ·) (denseParseIndices nonFeature) :=
  (List.pairwise_lt_range _).sublist (List.filter_sublist _)

/-- In a strictly ascending list every element is at most the last one. -/
theorem sorted_le_getLast :
    ∀ (l : List Nat), List.Pairwise (· < ·) l →
      ∀ last, l.getLast? = some last → ∀ x ∈ l, x ≤ last := by
  intro l
  induction l with
  | nil => intro _ last _ x hx; exact absurd hx (List.not_mem_nil x)
  | cons a l ih =>
    intro hp last hlast x hx
    cases l with
    | nil =>
      obtain rfl : a = last := by simpa using hlast
      obtain rfl : x = a := by simpa using hx
      exact le_refl x
    | cons b l1 =>
      rw [List.getLast?_cons_cons] at hlast
      have hp1 := List.pairwise_cons.1 hp
      have htail := ih hp1.2 last hlast
      rcases List.mem_cons.1 hx with rfl | hx1
      · have hb : b ≤ last := htail b (List.mem_cons_self b l1)
        have hab : x < b := hp1.1 b (List.mem_cons_self b l1)
        omega
      · exact htail x hx1

/-- Inversion of one dense read: success means the column exists and `stof`
parsed it. -/
theorem denseReadAt_ok (stof : String → Option ℚ) (columns : List String)
    (j : Nat) (v : ℚ) (h : denseReadAt stof columns j = .ok v) :
    ∃ s, columns.get? j = some s ∧ stof s = some v := by
  unfold denseReadAt at h
  cases hc : columns.get? j with
  | none =>
    rw [hc] at h
    exact nomatch h
  | some s =>
    rw [hc] at h
    cases hs : stof s with
    | none =>
      simp only [hs] at h
      exact nomatch h
    | some v1 =>
      simp only [hs] at h
      exact ⟨s, rfl, by rw [hs, Except.ok.inj h]⟩

/-- A successful dense loop returns one value per remaining iteration, each
the `stof`-parse of the column at the corresponding precomputed position. -/
theorem denseLoop_ok (stof : String → Option ℚ) (columns : List String)
    (parseIndices : List Nat) : ∀ (r i : Nat) (vs : List ℚ),
    denseLoop stof columns parseIndices i r = .ok vs →
    vs.length = r ∧ ∀ k, k < r → ∃ j s,
      parseIndices.get? (i + k) = some j ∧ columns.get? j = some s ∧
        stof s = vs.get? k := by
  intro r
  induction r with
  | zero =>
    intro i vs h
    obtain rfl : vs = [] := (Except.ok.inj h).symm
    exact ⟨rfl, fun k hk => absurd hk (Nat.not_lt_zero k)⟩
  | succ r ihr =>
    intro i vs h
    simp only [denseLoop] at h
    cases hj : parseIndices.get? i with
    | none =>
      rw [hj] at h
      exact nomatch h
    | some j =>
      simp only [hj] at h
      cases hread : denseReadAt stof columns j with
      | error e =>
        simp only [hread] at h
        exact nomatch h
      | ok v =>
        simp only [hread] at h
        cases hrec : denseLoop stof columns parseIndices (i + 1) r with
        | error e =>
          simp only [hrec] at h
          exact nomatch h
        | ok vs1 =>
          simp only [hrec] at h
          obtain rfl : vs = v :: vs1 := (Except.ok.inj h).symm
          obtain ⟨hlen, hpt⟩ := ihr (i + 1) vs1 hrec
          refine ⟨by simp [hlen], ?_⟩
          intro k hk
          cases k with
          | zero =>
            obtain ⟨s, hcs, hstof⟩ := denseReadAt_ok stof columns j v hread
            exact ⟨j, s, by simpa using hj, hcs, by simpa using hstof⟩
          | succ k1 =>
            obtain ⟨j1, s1, hj1, hs1, hst1⟩ := hpt k1 (by omega)
            refine ⟨j1, s1, ?_, hs1, hst1⟩
            have harith : i + (k1 + 1) = (i + 1) + k1 := by omega
            rw [harith]
            exact hj1

/-- When every remaining position is in bounds and some remaining position's
column fails to parse numerically, the dense loop fails with the `stof`
exception. -/
theorem denseLoop_numeric (stof : String → Option ℚ) (columns : List String)
    (parseIndices : List Nat) : ∀ (r i : Nat),
    (∀ k, k < r → ∃ j, parseIndices.get? (i + k) = some j ∧ j < columns.length) →
    (∃ k, k < r ∧ ∃ j s, parseIndices.get? (i + k) = some j ∧
        columns.get? j = some s ∧ stof s = none) →
    denseLoop stof columns parseIndices i r = .error .numericError := by
  intro r
  induction r with
  | zero =>
    rintro i _ ⟨k, hk, -⟩
    exact absurd hk (Nat.not_lt_zero k)
  | succ r ihr =>
    rintro i hin ⟨k, hk, j0, s0, hj0, hs0, hstof0⟩
    obtain ⟨j, hj, hjlt⟩ := hin 0 (Nat.succ_pos r)
    rw [Nat.add_zero] at hj
    obtain ⟨s, hs⟩ : ∃ s, columns.get? j = some s :=
      ⟨columns.get ⟨j, hjlt⟩, List.get?_eq_get hjlt⟩
    simp only [denseLoop, hj, denseReadAt, hs]
    cases hstof : stof s with
    | none => rfl
    | some v =>
      simp only [hstof]
      cases k with
      | zero =>
        rw [Nat.add_zero, hj] at hj0
        obtain rfl : j0 = j := (Option.some.inj hj0).symm
        rw [hs] at hs0
        obtain rfl : s0 = s := (Option.some.inj hs0).symm
        rw [hstof0] at hstof
        exact nomatch hstof
      | succ k1 =>
        have hin1 : ∀ k2, k2 < r →
            ∃ j2, parseIndices.get? ((i + 1) + k2) = some j2 ∧ j2 < columns.length := by
          intro k2 hk2
          obtain ⟨j2, hj2, hlt2⟩ := hin (k2 + 1) (by omega)
          refine ⟨j2, ?_, hlt2⟩
          have harith : (i + 1) + k2 = i + (k2 + 1) := by omega
          rw [harith]
          exact hj2
        have hbad1 : ∃ k2, k2 < r ∧ ∃ j2 s2,
            parseIndices.get? ((i + 1) + k2) = some j2 ∧
              columns.get? j2 = some s2 ∧ stof s2 = none := by
          refine ⟨k1, by omega, j0, s0, ?_, hs0, hstof0⟩
          have harith : (i + 1) + k1 = i + (k1 + 1) := by omega
          rw [harith]
          exact hj0
        simp only [ihr (i + 1) hin1 hbad1]

/-- C5: with the positions precomputed at construction (ascending indices of
the non-marked columns) and `dimension` their count, `DenseParser::ParseFeatures`
fails with a `FormatException` when the row has fewer columns than the
largest precomputed position plus one; otherwise a success returns exactly
`dimension` values, the `k`-th being the `stof`-parse of the column at the
`k`-th precomputed (schema-order) position, and any `stof` failure at one of
those positions is fatal. -/
theorem denseParseFeatures_spec (nonFeature : List Bool) (stof : String → Option ℚ)
    (columns : List String) (parseIndices : List Nat) (dimension last : Nat)
    (hpi : parseIndices = denseParseIndices nonFeature)
    (hdim : dimension = parseIndices.length)
    (hlast : parseIndices.getLast? = some last) :
    (columns.length ≤ last →
      DenseParser.ParseFeatures dimension parseIndices stof columns
        = .error .formatError) ∧
    (last < columns.length →
      (∀ vs, DenseParser.ParseFeatures dimension parseIndices stof columns = .ok vs →
        vs.length = dimension ∧ ∀ k, k < dimension → ∃ j s,
          parseIndices.get? k = some j ∧ columns.get? j = some s ∧
            stof s = vs.get? k) ∧
      ((∃ k, k < dimension ∧ ∃ j s, parseIndices.get? k = some j ∧
          columns.get? j = some s ∧ stof s = none) →
        DenseParser.ParseFeatures dimension parseIndices stof columns
          = .error .numericError)) := by
  have hin : ∀ k, k < dimension →
      ∃ j, parseIndices.get? (0 + k) = some j ∧ j ≤ last := by
    intro k hk
    have hk1 : k < parseIndices.length := by omega
    refine ⟨parseIndices.get ⟨k, hk1⟩, by simp [List.get?_eq_get hk1], ?_⟩
    exact sorted_le_getLast parseIndices (hpi ▸ denseParseIndices_sorted nonFeature)
      last hlast _ (List.get?_mem (List.get?_eq_get hk1))
  refine ⟨?_, ?_⟩
  · intro hshort
    simp only [DenseParser.ParseFeatures, hlast]
    rw [if_neg (not_lt.2 hshort)]
  · intro hlong
    have hunf : DenseParser.ParseFeatures dimension parseIndices stof columns
        = denseLoop stof columns parseIndices 0 dimension := by
      simp only [DenseParser.ParseFeatures, hlast]
      rw [if_pos hlong]
    refine ⟨?_, ?_⟩
    · intro vs hok
      rw [hunf] at hok
      obtain ⟨hlen, hpt⟩ := denseLoop_ok stof columns parseIndices dimension 0 vs hok
      refine ⟨hlen, ?_⟩
      intro k hk
      obtain ⟨j, s, hj, hcs, hstof⟩ := hpt k hk
      exact ⟨j, s, by simpa using hj, hcs, hstof⟩
    · intro hbad
      rw [hunf]
      refine denseLoop_numeric stof columns parseIndices dimension 0 ?_ ?_
      · intro k hk
        obtain ⟨j, hj, hjle⟩ := hin k hk
        exact ⟨j, hj, by omega⟩
      · obtain ⟨k, hk, j, s, hj, hcs, hstof⟩ := hbad
        exact ⟨k, hk, j, s, by simpa using hj, hcs, hstof⟩

theorem denseParseFeatures_spec_witness :
    DenseParser.ParseFeatures 2 [1, 2] (fun _ => some 1) ["L", "3", "4"]
        = .ok [1, 1] ∧ ([1, 1] : List ℚ).length = 2 := by
  have h := denseParseFeatures_spec [true, false, false] (fun _ => some 1)
    ["L", "3", "4"] [1, 2] 2 2 (by decide) rfl rfl
  have hok : DenseParser.ParseFeatures 2 [1, 2] (fun _ => some 1) ["L", "3", "4"]
      = .ok [1, 1] := rfl
  exact ⟨hok, ((h.2 (by decide)).1 [1, 1] hok).1⟩

/-- Association-list lookup across an append: the left map wins. -/
theorem lookup_append (m1 m2 : List (String × ℚ)) (s : String) :
    (m1 ++ m2).lookup s
      = match m1.lookup s with
        | some v => some v
        | none => m2.lookup s := by
  induction m1 with
  | nil => simp [List.lookup]
  | cons kv m1 ih =>
    obtain ⟨k, v⟩ := kv
    by_cases hk : s = k
    · simp [List.lookup, hk]
    · simp only [List.cons_append, List.lookup]
      rw [show (s == k) = false by simpa using hk]
      exact ih

/-- Filling the one-column map over distinct keys none of which is already
present succeeds, binds the `i`-th key to `c + i`, and does not change the
binding of any string outside the key list. -/
theorem buildMap1_ok (keys : List String) : ∀ (c : ℚ) (m : List (String × ℚ)),
    keys.Nodup → (∀ k ∈ keys, m.lookup k = none) →
    ∃ m', buildMap1 keys c m = .ok m' ∧
      (∀ i (hi : i < keys.length), m'.lookup (keys.get ⟨i, hi⟩) = some (c + i)) ∧
      (∀ s, s ∉ keys → m'.lookup s = m.lookup s) := by
  induction keys with
  | nil =>
    intro c m _ _
    exact ⟨m, rfl, fun i hi => absurd hi (Nat.not_lt_zero i), fun s _ => rfl⟩
  | cons l rest ih =>
    intro c m hnd hnone
    have hl : m.lookup l = none := hnone l (List.mem_cons_self l rest)
    have hnd1 := List.nodup_cons.1 hnd
    have hsingle : ∀ k, k ≠ l → (List.lookup k [(l, c)] : Option ℚ) = none := by
      intro k hk
      simp only [List.lookup]
      rw [show (k == l) = false by simpa using hk]
    have hnone1 : ∀ k ∈ rest, (m ++ [(l, c)]).lookup k = none := by
      intro k hk
      have hkl : k ≠ l := fun h => hnd1.1 (h ▸ hk)
      rw [lookup_append]
      simp only [hnone k (List.mem_cons_of_mem l hk)]
      exact hsingle k hkl
    obtain ⟨m', hbuild, hlook, hpres⟩ := ih (c + 1) (m ++ [(l, c)]) hnd1.2 hnone1
    refine ⟨m', ?_, ?_, ?_⟩
    · simp only [buildMap1, hl, Option.isSome_none, Bool.false_eq_true, if_false]
      exact hbuild
    · intro i hi
      cases i with
      | zero =>
        simp only [List.get]
        rw [hpres l hnd1.1, lookup_append, hl]
        simp [List.lookup]
      | succ i1 =>
        simp only [List.get]
        have hi1 : i1 < rest.length := by simpa using hi
        rw [hlook i1 hi1]
        have harith : c + 1 + (i1 : ℚ) = c + ((i1 + 1 : ℕ) : ℚ) := by
          push_cast
          ring
        rw [harith]
    · intro s hs
      have hsl : s ≠ l ∧ s ∉ rest := by simpa [List.mem_cons, not_or] using hs
      rw [hpres s hsl.2, lookup_append, hsingle s hsl.1]
      cases hms : m.lookup s <;> rfl

/-- A successful one-column fill implies the keys were pairwise distinct and
none was already bound in the accumulator. -/
theorem buildMap1_ok_nodup (keys : List String) : ∀ (c : ℚ) (m m' : List (String × ℚ)),
    buildMap1 keys c m = .ok m' →
    keys.Nodup ∧ ∀ k ∈ keys, m.lookup k = none := by
  induction keys with
  | nil =>
    intro c m m' _
    exact ⟨List.nodup_nil, fun k hk => absurd hk (List.not_mem_nil k)⟩
  | cons l rest ih =>
    intro c m m' h
    simp only [buildMap1] at h
    cases hl : m.lookup l with
    | some v =>
      rw [hl] at h
      simp only [Option.isSome_some, if_true] at h
      exact nomatch h
    | none =>
      rw [hl] at h
      simp only [Option.isSome_none, Bool.false_eq_true, if_false] at h
      obtain ⟨hnd, hnone⟩ := ih (c + 1) (m ++ [(l, c)]) m' h
      have hmem : l ∉ rest := by
        intro hmem
        have := hnone l hmem
        rw [lookup_append, hl] at this
        simp [List.lookup] at this
      refine ⟨List.nodup_cons.2 ⟨hmem, hnd⟩, ?_⟩
      intro k hk
      rcases List.mem_cons.1 hk with rfl | hk1
      · exact hl
      · have := hnone k hk1
        rw [lookup_append] at this
        cases hms : m.lookup k with
        | none => rfl
        | some v =>
          rw [hms] at this
          exact nomatch this

/-- Every failure of the one-column fill is a `FormatException`. -/
theorem buildMap1_error (keys : List String) : ∀ (c : ℚ) (m : List (String × ℚ)) (e : Err),
    buildMap1 keys c m = .error e → e = .formatError := by
  induction keys with
  | nil =>
    intro c m e h
    exact nomatch h
  | cons l rest ih =>
    intro c m e h
    simp only [buildMap1] at h
    cases hl : (m.lookup l).isSome with
    | true =>
      rw [hl] at h
      simp only [if_true] at h
      exact (Except.error.inj h).symm
    | false =>
      rw [hl] at h
      simp only [Bool.false_eq_true, if_false] at h
      exact ih (c + 1) (m ++ [(l, c)]) e h

/-- C7: for a one-column label-map file (all lines bare keys, more than one
line), pairwise-distinct keys make construction succeed with the `i`-th key
(in file order) bound to the float value `i`, and a duplicated key makes it
fail with a `FormatException`. -/
theorem buildLabelMap_oneCol (splitTab : String → List String)
    (stof : String → Option ℚ) (l0 : String) (rest : List String)
    (hne : rest ≠ []) (hsplit : (splitTab l0).length = 1) :
    ((l0 :: rest).Nodup →
      ∃ m, buildLabelMap splitTab stof (l0 :: rest) = .ok m ∧
        ∀ i (hi : i < (l0 :: rest).length),
          m.lookup ((l0 :: rest).get ⟨i, hi⟩) = some (i : ℚ)) ∧
    (¬ (l0 :: rest).Nodup →
      buildLabelMap splitTab stof (l0 :: rest) = .error .formatError) := by
  have hlen : ¬ ((l0 :: rest).length ≤ 1) := by
    have := List.length_pos.2 hne
    simp only [List.length_cons]
    omega
  have hunf : buildLabelMap splitTab stof (l0 :: rest)
      = buildMap1 (l0 :: rest) 0 [] := by
    simp only [buildLabelMap]
    rw [if_neg hlen, if_neg (by omega : ¬ 2 < (splitTab l0).length), if_pos hsplit]
  refine ⟨?_, ?_⟩
  · intro hnd
    obtain ⟨m', hbuild, hlook, -⟩ :=
      buildMap1_ok (l0 :: rest) 0 [] hnd (fun k _ => rfl)
    refine ⟨m', hunf ▸ hbuild, ?_⟩
    intro i hi
    rw [hlook i hi]
    simp
  · intro hnd
    rw [hunf]
    cases hb : buildMap1 (l0 :: rest) 0 [] with
    | ok m' => exact absurd (buildMap1_ok_nodup (l0 :: rest) 0 [] m' hb).1 hnd
    | error e =>
      rw [buildMap1_error (l0 :: rest) 0 [] e hb]

theorem buildLabelMap_oneCol_witness :
    ∃ m, buildLabelMap (fun s => [s]) (fun _ => none) ["a", "b"] = .ok m ∧
      ∀ i (hi : i < (["a", "b"] : List String).length),
        m.lookup ((["a", "b"] : List String).get ⟨i, hi⟩) = some (i : ℚ) :=
  (buildLabelMap_oneCol (fun s => [s]) (fun _ => none) "a" ["b"]
    (by decide) rfl).1 (by decide)

/-- A bounds-checked column access with a valid index succeeds. -/
theorem getCol_ok (columns : List String) (i : Int) (h0 : 0 ≤ i)
    (hlt : i.toNat < columns.length) :
    getCol columns i = .ok (columns.get ⟨i.toNat, hlt⟩) := by
  unfold getCol
  rw [dif_pos ⟨h0, hlt⟩]

/-- Inversion of a successful `ExampleParser::Parse`: the label column was
read and resolved through `stof` (empty map) or through the map, and the
weight is the parsed weight column when configured, `1` otherwise. -/
theorem Parse_ok_inv (cfg : ParserConfig) (stof : String → Option ℚ)
    (parseFeats : List String → Except Err F) (columns : List String)
    (ex : Example F)
    (hok : ExampleParser.Parse cfg stof parseFeats columns = .ok ex) :
    ∃ s, getCol columns cfg.labelCol = .ok s ∧
      (cfg.labelMap = [] → stof s = some ex.label) ∧
      (cfg.labelMap ≠ [] → cfg.labelMap.lookup s = some ex.label) ∧
      (¬ 0 ≤ cfg.weightCol → ex.weight = 1) ∧
      (0 ≤ cfg.weightCol →
        ∃ ws, getCol columns cfg.weightCol = .ok ws ∧ stof ws = some ex.weight) := by
  cases hsl : getCol columns cfg.labelCol with
  | error e => simp [ExampleParser.Parse, hsl] at hok
  | ok s =>
    cases hmap : cfg.labelMap with
    | nil =>
      cases hstof : stof s with
      | none => simp [ExampleParser.Parse, hsl, hmap, hstof] at hok
      | some lv =>
        by_cases hw : 0 ≤ cfg.weightCol
        · cases hwc : getCol columns cfg.weightCol with
          | error e => simp [ExampleParser.Parse, hsl, hmap, hstof, hw, hwc] at hok
          | ok ws =>
            cases hws : stof ws with
            | none => simp [ExampleParser.Parse, hsl, hmap, hstof, hw, hwc, hws] at hok
            | some wv =>
              cases hpf : parseFeats columns with
              | error e =>
                simp [ExampleParser.Parse, hsl, hmap, hstof, hw, hwc, hws, hpf] at hok
              | ok feats =>
                by_cases hn : 0 ≤ cfg.nameCol
                · cases hnc : getCol columns cfg.nameCol with
                  | error e =>
                    simp [ExampleParser.Parse, hsl, hmap, hstof, hw, hwc, hws, hpf,
                      hn, hnc] at hok
                  | ok ns =>
                    have hev : ExampleParser.Parse cfg stof parseFeats columns
                        = .ok { features := feats, label := lv, weight := wv,
                                name := some ns } := by
                      simp [ExampleParser.Parse, hsl, hmap, hstof, hw, hwc, hws, hpf,
                        hn, hnc]
                    rw [hev] at hok
                    obtain rfl := Except.ok.inj hok
                    exact ⟨s, rfl, fun _ => hstof, fun hne => absurd rfl hne,
                      fun hwn => absurd hw hwn, fun _ => ⟨ws, rfl, hws⟩⟩
                · have hev : ExampleParser.Parse cfg stof parseFeats columns
                      = .ok { features := feats, label := lv, weight := wv,
                              name := none } := by
                    simp [ExampleParser.Parse, hsl, hmap, hstof, hw, hwc, hws, hpf, hn]
                  rw [hev] at hok
                  obtain rfl := Except.ok.inj hok
                  exact ⟨s, rfl, fun _ => hstof, fun hne => absurd rfl hne,
                    fun hwn => absurd hw hwn, fun _ => ⟨ws, rfl, hws⟩⟩
        · cases hpf : parseFeats columns with
          | error e => simp [ExampleParser.Parse, hsl, hmap, hstof, hw, hpf] at hok
          | ok feats =>
            by_cases hn : 0 ≤ cfg.nameCol
            · cases hnc : getCol columns cfg.nameCol with
              | error e =>
                simp [ExampleParser.Parse, hsl, hmap, hstof, hw, hpf, hn, hnc] at hok
              | ok ns =>
                have hev : ExampleParser.Parse cfg stof parseFeats columns
                    = .ok { features := feats, label := lv, weight := 1,
                            name := some ns } := by
                  simp [ExampleParser.Parse, hsl, hmap, hstof, hw, hpf, hn, hnc]
                rw [hev] at hok
                obtain rfl := Except.ok.inj hok
                exact ⟨s, rfl, fun _ => hstof, fun hne => absurd rfl hne,
                  fun _ => rfl, fun hwp => absurd hwp hw⟩
            · have hev : ExampleParser.Parse cfg stof parseFeats columns
                  = .ok { features := feats, label := lv, weight := 1,
                          name := none } := by
                simp [ExampleParser.Parse, hsl, hmap, hstof, hw, hpf, hn]
              rw [hev] at hok
              obtain rfl := Except.ok.inj hok
              exact ⟨s, rfl, fun _ => hstof, fun hne => absurd rfl hne,
                fun _ => rfl, fun hwp => absurd hwp hw⟩
    | cons kv t =>
      cases hlook : (kv :: t).lookup s with
      | none => simp [ExampleParser.Parse, hsl, hmap, hlook] at hok
      | some lv =>
        by_cases hw : 0 ≤ cfg.weightCol
        · cases hwc : getCol columns cfg.weightCol with
          | error e => simp [ExampleParser.Parse, hsl, hmap, hlook, hw, hwc] at hok
          | ok ws =>
            cases hws : stof ws with
            | none => simp [ExampleParser.Parse, hsl, hmap, hlook, hw, hwc, hws] at hok
            | some wv =>
              cases hpf : parseFeats columns with
              | error e =>
                simp [ExampleParser.Parse, hsl, hmap, hlook, hw, hwc, hws, hpf] at hok
              | ok feats =>
                by_cases hn : 0 ≤ cfg.nameCol
                · cases hnc : getCol columns cfg.nameCol with
                  | error e =>
                    simp [ExampleParser.Parse, hsl, hmap, hlook, hw, hwc, hws, hpf,
                      hn, hnc] at hok
                  | ok ns =>
                    have hev : ExampleParser.Parse cfg stof parseFeats columns
                        = .ok { features := feats, label := lv, weight := wv,
                                name := some ns } := by
                      simp [ExampleParser.Parse, hsl, hmap, hlook, hw, hwc, hws, hpf,
                        hn, hnc]
                    rw [hev] at hok
                    obtain rfl := Except.ok.inj hok
                    exact ⟨s, rfl,
                      fun hnil => absurd hnil (List.cons_ne_nil kv t),
                      fun _ => hlook,
                      fun hwn => absurd hw hwn, fun _ => ⟨ws, rfl, hws⟩⟩
                · have hev : ExampleParser.Parse cfg stof parseFeats columns
                      = .ok { features := feats, label := lv, weight := wv,
                              name := none } := by
                    simp [ExampleParser.Parse, hsl, hmap, hlook, hw, hwc, hws, hpf, hn]
                  rw [hev] at hok
                  obtain rfl := Except.ok.inj hok
                  exact ⟨s, rfl,
                    fun hnil => absurd hnil (List.cons_ne_nil kv t),
                    fun _ => hlook,
                    fun hwn => absurd hw hwn, fun _ => ⟨ws, rfl, hws⟩⟩
        · cases hpf : parseFeats columns with
          | error e => simp [ExampleParser.Parse, hsl, hmap, hlook, hw, hpf] at hok
          | ok feats =>
            by_cases hn : 0 ≤ cfg.nameCol
            · cases hnc : getCol columns cfg.nameCol with
              | error e =>
                simp [ExampleParser.Parse, hsl, hmap, hlook, hw, hpf, hn, hnc] at hok
              | ok ns =>
                have hev : ExampleParser.Parse cfg stof parseFeats columns
                    = .ok { features := feats, label := lv, weight := 1,
                            name := some ns } := by
                  simp [ExampleParser.Parse, hsl, hmap, hlook, hw, hpf, hn, hnc]
                rw [hev] at hok
                obtain rfl := Except.ok.inj hok
                exact ⟨s, rfl,
                  fun hnil => absurd hnil (List.cons_ne_nil kv t),
                  fun _ => hlook,
                  fun _ => rfl, fun hwp => absurd hwp hw⟩
            · have hev : ExampleParser.Parse cfg stof parseFeats columns
                  = .ok { features := feats, label := lv, weight := 1,
                          name := none } := by
                simp [ExampleParser.Parse, hsl, hmap, hlook, hw, hpf, hn]
              rw [hev] at hok
              obtain rfl := Except.ok.inj hok
              exact ⟨s, rfl,
                fun hnil => absurd hnil (List.cons_ne_nil kv t),
                fun _ => hlook,
                fun _ => rfl, fun hwp => absurd hwp hw⟩

/-- Inversion of a failing `ExampleParser::Parse`: the failure is a column
access (label, weight or name), a label resolution failure, a weight parse
failure, or a feature-extraction failure. -/
theorem Parse_error_inv (cfg : ParserConfig) (stof : String → Option ℚ)
    (parseFeats : List String → Except Err F) (columns : List String)
    (e : Err) (h : ExampleParser.Parse cfg stof parseFeats columns = .error e) :
    getCol columns cfg.labelCol = .error e ∨ e = .numericError ∨ e = .lookupError ∨
    (0 ≤ cfg.weightCol ∧ getCol columns cfg.weightCol = .error e) ∨
    parseFeats columns = .error e ∨
    (0 ≤ cfg.nameCol ∧ getCol columns cfg.nameCol = .error e) := by
  cases hsl : getCol columns cfg.labelCol with
  | error e1 =>
    have hev : ExampleParser.Parse cfg stof parseFeats columns = .error e1 := by
      simp [ExampleParser.Parse, hsl]
    rw [hev] at h
    obtain rfl := Except.error.inj h
    exact Or.inl rfl
  | ok s =>
    have hlabel : ∀ lv, (if cfg.labelMap.isEmpty then
          match stof s with
          | some v => Except.ok v
          | none => Except.error Err.numericError
        else
          match cfg.labelMap.lookup s with
          | some v => Except.ok v
          | none => Except.error Err.lookupError) = Except.error lv →
        lv = Err.numericError ∨ lv = Err.lookupError := by
      intro lv hres
      by_cases hemp : cfg.labelMap.isEmpty
      · rw [if_pos hemp] at hres
        cases hstof : stof s with
        | none =>
          rw [hstof] at hres
          exact Or.inl (Except.error.inj hres).symm
        | some v =>
          rw [hstof] at hres
          exact nomatch hres
      · rw [if_neg hemp] at hres
        cases hlook : cfg.labelMap.lookup s with
        | none =>
          rw [hlook] at hres
          exact Or.inr (Except.error.inj hres).symm
        | some v =>
          rw [hlook] at hres
          exact nomatch hres
    cases hres : (if cfg.labelMap.isEmpty then
        match stof s with
        | some v => Except.ok v
        | none => Except.error Err.numericError
      else
        match cfg.labelMap.lookup s with
        | some v => Except.ok v
        | none => Except.error Err.lookupError : Except Err ℚ) with
    | error lv =>
      have hev : ExampleParser.Parse cfg stof parseFeats columns = .error lv := by
        simp only [ExampleParser.Parse, hsl]
        rw [hres]
      rw [hev] at h
      obtain rfl := Except.error.inj h
      rcases hlabel lv hres with h1 | h1 <;> rw [h1]
      · exact Or.inr (Or.inl rfl)
      · exact Or.inr (Or.inr (Or.inl rfl))
    | ok lv =>
      by_cases hw : 0 ≤ cfg.weightCol
      · cases hwc : getCol columns cfg.weightCol with
        | error e1 =>
          have hev : ExampleParser.Parse cfg stof parseFeats columns = .error e1 := by
            simp only [ExampleParser.Parse, hsl]
            rw [hres]
            simp [hw, hwc]
          rw [hev] at h
          obtain rfl := Except.error.inj h
          exact Or.inr (Or.inr (Or.inr (Or.inl ⟨hw, rfl⟩)))
        | ok ws =>
          cases hws : stof ws with
          | none =>
            have hev : ExampleParser.Parse cfg stof parseFeats columns
                = .error .numericError := by
              simp only [ExampleParser.Parse, hsl]
              rw [hres]
              simp [hw, hwc, hws]
            rw [hev] at h
            obtain rfl := Except.error.inj h
            exact Or.inr (Or.inl rfl)
          | some wv =>
            cases hpf : parseFeats columns with
            | error e1 =>
              have hev : ExampleParser.Parse cfg stof parseFeats columns
                  = .error e1 := by
                simp only [ExampleParser.Parse, hsl]
                rw [hres]
                simp [hw, hwc, hws, hpf]
              rw [hev] at h
              obtain rfl := Except.error.inj h
              exact Or.inr (Or.inr (Or.inr (Or.inr (Or.inl rfl))))
            | ok feats =>
              by_cases hn : 0 ≤ cfg.nameCol
              · cases hnc : getCol columns cfg.nameCol with
                | error e1 =>
                  have hev : ExampleParser.Parse cfg stof parseFeats columns
                      = .error e1 := by
                    simp only [ExampleParser.Parse, hsl]
                    rw [hres]
                    simp [hw, hwc, hws, hpf, hn, hnc]
                  rw [hev] at h
                  obtain rfl := Except.error.inj h
                  exact Or.inr (Or.inr (Or.inr (Or.inr (Or.inr ⟨hn, rfl⟩))))
                | ok ns =>
                  have hev : ExampleParser.Parse cfg stof parseFeats columns
                      = .ok { features := feats, label := lv, weight := wv,
                              name := some ns } := by
                    simp only [ExampleParser.Parse, hsl]
                    rw [hres]
                    simp [hw, hwc, hws, hpf, hn, hnc]
                  rw [hev] at h
                  exact nomatch h
              · have hev : ExampleParser.Parse cfg stof parseFeats columns
                    = .ok { features := feats, label := lv, weight := wv,
                            name := none } := by
                  simp only [ExampleParser.Parse, hsl]
                  rw [hres]
                  simp [hw, hwc, hws, hpf, hn]
                rw [hev] at h
                exact nomatch h
      · cases hpf : parseFeats columns with
        | error e1 =>
          have hev : ExampleParser.Parse cfg stof parseFeats columns = .error e1 := by
            simp only [ExampleParser.Parse, hsl]
            rw [hres]
            simp [hw, hpf]
          rw [hev] at h
          obtain rfl := Except.error.inj h
          exact Or.inr (Or.inr (Or.inr (Or.inr (Or.inl rfl))))
        | ok feats =>
          by_cases hn : 0 ≤ cfg.nameCol
          · cases hnc : getCol columns cfg.nameCol with
            | error e1 =>
              have hev : ExampleParser.Parse cfg stof parseFeats columns
                  = .error e1 := by
                simp only [ExampleParser.Parse, hsl]
                rw [hres]
                simp [hw, hpf, hn, hnc]
              rw [hev] at h
              obtain rfl := Except.error.inj h
              exact Or.inr (Or.inr (Or.inr (Or.inr (Or.inr ⟨hn, rfl⟩))))
            | ok ns =>
              have hev : ExampleParser.Parse cfg stof parseFeats columns
                  = .ok { features := feats, label := lv, weight := 1,
                          name := some ns } := by
                simp only [ExampleParser.Parse, hsl]
                rw [hres]
                simp [hw, hpf, hn, hnc]
              rw [hev] at h
              exact nomatch h
          · have hev : ExampleParser.Parse cfg stof parseFeats columns
                = .ok { features := feats, label := lv, weight := 1,
                        name := none } := by
              simp only [ExampleParser.Parse, hsl]
              rw [hres]
              simp [hw, hpf, hn]
            rw [hev] at h
            exact nomatch h

/-- C8: in `ExampleParser::Parse`, with `s` the text of the label column:
an empty label map parses `s` with `stof` (failure fatal), a non-empty map
resolves `s` through the map with no fallback (a missing key is fatal), and
the weight is the parsed weight column when one is configured, `1`
otherwise. -/
theorem parse_label_weight_spec (cfg : ParserConfig) (stof : String → Option ℚ)
    (parseFeats : List String → Except Err F) (columns : List String)
    (s : String) (hs : getCol columns cfg.labelCol = .ok s) :
    (cfg.labelMap = [] → stof s = none →
      ExampleParser.Parse cfg stof parseFeats columns = .error .numericError) ∧
    (cfg.labelMap ≠ [] → cfg.labelMap.lookup s = none →
      ExampleParser.Parse cfg stof parseFeats columns = .error .lookupError) ∧
    (∀ ex, ExampleParser.Parse cfg stof parseFeats columns = .ok ex →
      (cfg.labelMap = [] → stof s = some ex.label) ∧
      (cfg.labelMap ≠ [] → cfg.labelMap.lookup s = some ex.label) ∧
      (cfg.weightCol < 0 → ex.weight = 1) ∧
      (0 ≤ cfg.weightCol → ∃ ws, getCol columns cfg.weightCol = .ok ws ∧
        stof ws = some ex.weight)) := by
  refine ⟨?_, ?_, ?_⟩
  · intro hnil hstof
    simp [ExampleParser.Parse, hs, hnil, hstof]
  · intro hne hlook
    cases hm : cfg.labelMap with
    | nil => exact absurd hm hne
    | cons kv t =>
      rw [hm] at hlook
      simp [ExampleParser.Parse, hs, hm, hlook]
  · intro ex hok
    obtain ⟨s1, hs1, h1, h2, h3, h4⟩ :=
      Parse_ok_inv cfg stof parseFeats columns ex hok
    obtain rfl : s = s1 := Except.ok.inj (hs.symm.trans hs1)
    exact ⟨h1, h2, fun hw => h3 (not_le.2 hw), h4⟩

theorem parse_label_weight_spec_witness :
    ExampleParser.Parse ⟨2, 0, 1, -1, []⟩ (fun _ => none)
        (fun _ => Except.ok ()) ["5"] = .error .numericError :=
  (parse_label_weight_spec ⟨2, 0, 1, -1, []⟩ (fun _ => none)
    (fun _ => Except.ok ()) ["5"] "5" rfl).1 rfl rfl

/-- C10, counterexample: with `labelCol = 0`, `weightCol = 1` and a line
whose split has a single field, `Parse` reaches the unchecked access
`columns[weightCol_]` on a row that has no column 1: the out-of-bounds
access happens (undefined behaviour in the C++ code), the line is not
rejected with a format error. -/
theorem parse_oob_counterexample :
    ExampleParser.Parse ⟨2, 0, 1, -1, []⟩ (fun _ => some 1)
        (fun _ => Except.ok ()) ["5"] = .error .outOfBounds := rfl

/-- C10, amended: when every configured role column index (label, weight,
name) lies within the split row and the feature extractor performs no
out-of-bounds access, `ExampleParser::Parse` performs no out-of-bounds
access either: it returns an `Example` or fails with a parse/lookup/format
error. -/
theorem parse_no_oob (cfg : ParserConfig) (stof : String → Option ℚ)
    (parseFeats : List String → Except Err F) (columns : List String)
    (hL : 0 ≤ cfg.labelCol ∧ cfg.labelCol.toNat < columns.length)
    (hW : 0 ≤ cfg.weightCol → cfg.weightCol.toNat < columns.length)
    (hN : 0 ≤ cfg.nameCol → cfg.nameCol.toNat < columns.length)
    (hpf : parseFeats columns ≠ .error .outOfBounds) :
    ExampleParser.Parse cfg stof parseFeats columns ≠ .error .outOfBounds := by
  intro hcontra
  rcases Parse_error_inv cfg stof parseFeats columns .outOfBounds hcontra with
    h | h | h | ⟨hw, h⟩ | h | ⟨hn, h⟩
  · rw [getCol_ok columns cfg.labelCol hL.1 hL.2] at h
    exact nomatch h
  · exact nomatch h
  · exact nomatch h
  · rw [getCol_ok columns cfg.weightCol hw (hW hw)] at h
    exact nomatch h
  · exact hpf h
  · rw [getCol_ok columns cfg.nameCol hn (hN hn)] at h
    exact nomatch h

theorem parse_no_oob_witness :
    ExampleParser.Parse ⟨2, 0, 1, -1, []⟩ (fun _ => some 1)
        (fun _ => Except.ok ()) ["5", "7"] ≠ .error .outOfBounds :=
  parse_no_oob ⟨2, 0, 1, -1, []⟩ (fun _ => some 1) (fun _ => Except.ok ())
    ["5", "7"] ⟨by decide, by decide⟩ (fun _ => by decide)
    (fun h => absurd h (by decide)) (fun h => nomatch h)

/-- `MoveNext` never touches the data lines or the cache. -/
theorem MoveNext_preserves (parse : String → Except Err (Example F))
    (s : CursorState F) :
    ((State.MoveNext parse s).1).lines = s.lines ∧
    ((State.MoveNext parse s).1).cache = s.cache := by
  unfold State.MoveNext
  by_cases hc : s.cache.isEmpty
  · cases hg : s.lines.get? s.pos <;> simp [hc, hg]
  · simp [hc]

/-- `Reset` never touches the data lines or the cache. -/
theorem Reset_preserves (parse : String → Except Err (Example F))
    (s : CursorState F) :
    (State.Reset parse s).lines = s.lines ∧
    (State.Reset parse s).cache = s.cache := by
  unfold State.Reset
  by_cases hc : s.cache.isEmpty
  · cases hg : s.lines.head? <;> simp [hc, hg]
  · simp [hc]

/-- Any number of `MoveNext` calls never touches the data lines or the
cache. -/
theorem run_preserves (parse : String → Except Err (Example F)) :
    ∀ (n : Nat) (s : CursorState F),
    (State.run parse s n).lines = s.lines ∧
    (State.run parse s n).cache = s.cache := by
  intro n
  induction n with
  | zero => intro s; exact ⟨rfl, rfl⟩
  | succ n ihn =>
    intro s
    obtain ⟨h1, h2⟩ := MoveNext_preserves parse s
    obtain ⟨h3, h4⟩ := ihn (State.MoveNext parse s).1
    exact ⟨h3.trans h1, h4.trans h2⟩

/-- After `Reset`, the current example is the parse of the first data line —
read back from the stream when there is no cache, or the first materialized
example when the cache was built by draining the cursor. -/
theorem Reset_current (parse : String → Except Err (Example F)) (s : CursorState F)
    (l0 : String) (rest : List String) (hl : s.lines = l0 :: rest)
    (cache : List (Example F)) (hc : s.cache = cache)
    (hcache : cache = [] ∨ cacheOf parse (l0 :: rest) = some cache) :
    (State.Reset parse s).current = some (parse l0) := by
  rcases hcache with rfl | hsome
  · simp [State.Reset, hc, hl]
  · simp only [cacheOf] at hsome
    cases hp : parse l0 with
    | error e =>
      rw [hp] at hsome
      exact nomatch hsome
    | ok e0 =>
      rw [hp] at hsome
      cases hco : cacheOf parse rest with
      | none =>
        rw [hco] at hsome
        exact nomatch hsome
      | some es =>
        rw [hco] at hsome
        obtain rfl : cache = e0 :: es := (Option.some.inj hsome).symm
        simp [State.Reset, hc, hp]

/-- C3: for a loaded dataset whose first data line is `l0` — with an empty
cache (streaming mode) or a cache materialized by draining the cursor —
`Reset` after any number `n` of `MoveNext` calls makes the current example
the parse of the first data row, identical to the current example produced
by the `Reset` performed at construction. -/
theorem reset_returns_first (parse : String → Except Err (Example F))
    (l0 : String) (rest : List String) (cache : List (Example F))
    (hcache : cache = [] ∨ cacheOf parse (l0 :: rest) = some cache) (n : Nat) :
    (State.construct parse (l0 :: rest) cache).current = some (parse l0) ∧
    (State.Reset parse
        (State.run parse (State.construct parse (l0 :: rest) cache) n)).current
      = some (parse l0) := by
  have hbase :
      (State.construct parse (l0 :: rest) cache).lines = l0 :: rest ∧
      (State.construct parse (l0 :: rest) cache).cache = cache := by
    unfold State.construct
    exact ⟨(Reset_preserves parse _).1, (Reset_preserves parse _).2⟩
  have h0 : (State.construct parse (l0 :: rest) cache).current = some (parse l0) := by
    unfold State.construct
    exact Reset_current parse _ l0 rest rfl cache rfl hcache
  refine ⟨h0, ?_⟩
  obtain ⟨hl, hc⟩ := run_preserves parse n (State.construct parse (l0 :: rest) cache)
  exact Reset_current parse _ l0 rest (hl.trans hbase.1) cache (hc.trans hbase.2) hcache

theorem reset_returns_first_witness :
    (State.construct
        (fun _ => Except.ok ({ features := (), label := 1, weight := 1, name := none } : Example Unit))
        ["a"] []).current
      = some (Except.ok ({ features := (), label := 1, weight := 1, name := none } : Example Unit)) ∧
    (State.Reset
        (fun _ => Except.ok ({ features := (), label := 1, weight := 1, name := none } : Example Unit))
        (State.run
          (fun _ => Except.ok ({ features := (), label := 1, weight := 1, name := none } : Example Unit))
          (State.construct
            (fun _ => Except.ok ({ features := (), label := 1, weight := 1, name := none } : Example Unit))
            ["a"] []) 2)).current
      = some (Except.ok ({ features := (), label := 1, weight := 1, name := none } : Example Unit)) :=
  reset_returns_first
    (fun _ => Except.ok ({ features := (), label := 1, weight := 1, name := none } : Example Unit))
    "a" [] [] (Or.inl rfl) 2

end MLx
